import Mathlib

/-!
Verification development for the rok-server-analytics repository.

Shallow embedding of the time-series forecasting and next-server
prediction core:
  * `src/utils/time_series.py`   — `predict_next_servers`, `_detect_map_pattern`,
    `find_optimal_arima_params`, `forecast_with_arima`, `forecast_with_sarima`,
    `analyze_time_patterns`
  * `src/utils/data_processor.py` — `_process_time_data`, `prepare_time_series_data`
  * `src/components/map_analysis.py` — `detect_pattern_length`

Conventions of the embedding:
  * pandas timestamps are modelled by `Tstamp`: `aware` is the tz-awareness
    flag, `sec` is the instant in seconds since the epoch (UTC-based for
    aware timestamps, wall-clock for naive ones), `off` is the utc-offset of
    the timestamp's zone in seconds (`0` for naive timestamps).  pandas
    raises `TypeError` on subtracting a naive timestamp from an aware one
    (or vice versa); the embedding returns `none` there.
  * `NaT` (the missing-timestamp/timedelta value, produced e.g. by
    `pd.Timedelta(hours=float("nan"))`) is modelled by `Option`.
  * floating point counts/hours are modelled by `ℚ`; all quantities the
    claims touch are ratios of small integers for which the double
    arithmetic of the source is exact, including the `> 0.5` consistency
    comparisons and the `>= 0.7 * expected` threshold.
  * a raised exception inside the `try:` body of `predict_next_servers`
    is modelled by `Option`: `none` means the except-branch runs and the
    function returns its empty fallback frame.
-/

/-- One row of the normalized EventTable, with the ingestion-derived
columns (`Hour`, `DayOfWeek`) that `predict_next_servers` and
`analyze_time_patterns` read. -/
structure Tstamp where
  aware : Bool
  sec : ℚ
  off : ℚ
deriving DecidableEq, Repr

structure Row where
  serverId : ℤ
  districtId : ℤ
  openDT : Tstamp
  hour : ℕ
  dayOfWeek : ℕ
  mapType : String
deriving DecidableEq, Repr

/-- A raw server record as delivered by the API (before
`_process_time_data`): `OpenTime` is epoch seconds. -/
structure RawServer where
  serverId : ℤ
  districtId : ℤ
  openTime : ℤ
  mapType : String
deriving DecidableEq, Repr

/-- Embeds `_process_time_data` (src/utils/data_processor.py): `OpenDateTime`
is `pd.to_datetime(OpenTime, unit='s')`, a zone-NAIVE timestamp, and the
derived `Hour` / `DayOfWeek` columns are its UTC wall-clock hour and
Monday-0 weekday (1970-01-01 is a Thursday, weekday 3). -/
def process_time_data (raws : List RawServer) : List Row :=
  raws.map fun r =>
    { serverId := r.serverId
      districtId := r.districtId
      openDT := { aware := false, sec := (r.openTime : ℚ), off := 0 }
      hour := ((r.openTime.emod 86400).ediv 3600).toNat
      dayOfWeek := (((r.openTime.ediv 86400) + 3).emod 7).toNat
      mapType := r.mapType }

/-- First-occurrence-ordered deduplication helper (`seen` accumulator). -/
def dedupAux : List ℕ → List ℕ → List ℕ
  | [], _ => []
  | x :: xs, seen => if x ∈ seen then dedupAux xs seen else x :: dedupAux xs (x :: seen)

/-- Distinct values of a list in first-occurrence order. -/
def dedupFirst (l : List ℕ) : List ℕ := dedupAux l []

/-- `series.value_counts().idxmax()`: a value of maximal multiplicity,
`none` on an empty series (where pandas raises `ValueError`).  Among
equally frequent values the source's order is implementation-defined
(unstable sort inside `value_counts`); the embedding picks the earliest
first occurrence.  All concrete inputs used below have a unique mode. -/
def mostCommon (l : List ℕ) : Option ℕ :=
  (dedupFirst l).foldl
    (fun acc v =>
      match acc with
      | none => some v
      | some b => if l.count b < l.count v then some v else acc)
    none

/-- `series.value_counts().max()`: the maximal multiplicity. -/
def maxCountOf (l : List ℕ) : ℕ :=
  (dedupFirst l).foldl (fun m v => max m (l.count v)) 0

/-- `counts.max() / counts.sum()` — the consistency ratio. -/
def consistency (l : List ℕ) : ℚ :=
  (maxCountOf l : ℚ) / (l.length : ℚ)

/-- Stable insertion of a row into a list sorted by opening instant
(ties keep encounter order; the source's `sort_values` order among equal
keys is implementation-defined). -/
def insertRowByTime (r : Row) : List Row → List Row
  | [] => [r]
  | x :: xs => if r.openDT.sec < x.openDT.sec then r :: x :: xs else x :: insertRowByTime r xs

/-- `df.sort_values('OpenDateTime')`. -/
def sortRowsByTime : List Row → List Row
  | [] => []
  | x :: xs => insertRowByTime x (sortRowsByTime xs)

/-- Insertion sort on rationals, for the median. -/
def insertQ (q : ℚ) : List ℚ → List ℚ
  | [] => [q]
  | x :: xs => if q < x then q :: x :: xs else x :: insertQ q xs

def sortQ : List ℚ → List ℚ
  | [] => []
  | x :: xs => insertQ x (sortQ xs)

/-- `series.median()`: middle element for odd length, mean of the two
middle elements for even length, `NaN` (here `none`) for an empty
series. -/
def medianQ (l : List ℚ) : Option ℚ :=
  let s := sortQ l
  let n := s.length
  if n = 0 then none
  else if n % 2 = 1 then some (s.getD (n / 2) 0)
  else some ((s.getD (n / 2 - 1) 0 + s.getD (n / 2) 0) / 2)

/-- `recent['OpenDateTime'].diff().dt.total_seconds() / 3600` with the
leading `NaN` dropped: consecutive gaps in hours. -/
def timeDeltasHours (l : List Row) : List ℚ :=
  (l.zip l.tail).map fun p => (p.2.openDT.sec - p.1.openDT.sec) / 3600

/-- `df['ServerId'].max()` (the `[]` case never feeds the prediction
loop: the empty table fails earlier, at `idxmax`). -/
def maxServerId (df : List Row) : ℤ :=
  match df.map (fun r => r.serverId) with
  | [] => 0
  | x :: xs => xs.foldl max x

/-- The fixed default map alphabet of `_detect_map_pattern`. -/
def defaultMapPattern : List String :=
  ["Sever_Map_G1_1_v2", "Sever_Map_G1_2_v2", "Sever_Map_G1_3_v2", "Sever_Map_G1_4_v2"]

/-- Overlapping scan of `_detect_map_pattern`: the number of indices
`i ∈ range(len(map_types) - n)` with `map_types[i:i+n] == pat`. -/
def countPatternMatches (l pat : List String) (n : ℕ) : ℕ :=
  (List.range (l.length - n)).countP fun i => decide ((l.drop i).take n = pat)

/-- One iteration of the `for pattern_length in range(2, 5)` loop: the
last `n` tokens, accepted when they recur at least twice. -/
def patternCandidate (l : List String) (n : ℕ) : Option (List String) :=
  if 2 ≤ countPatternMatches l (l.drop (l.length - n)) n then some (l.drop (l.length - n))
  else none

/-- Embeds `_detect_map_pattern` (src/utils/time_series.py).  The final
`return default_pattern` of the source is unreachable in the else-branch
(there `len(map_types) >= 4` always holds), hence the last-4 fallback. -/
def detect_map_pattern (l : List String) : List String :=
  if l.length < 4 then defaultMapPattern
  else
    match patternCandidate l 2 with
    | some p => p
    | none =>
      match patternCandidate l 3 with
      | some p => p
      | none =>
        match patternCandidate l 4 with
        | some p => p
        | none => l.drop (l.length - 4)

/-- Number of matching non-overlapping stride-`len` windows in
`detect_pattern_length`: indices `i = len, 2*len, ...` with
`i <= sequence.length - len`, window equal to the first-`len` prefix. -/
def strideMatches (s : List String) (len : ℕ) : ℕ :=
  (List.range' len ((s.length - len) / len) len).countP fun i =>
    decide ((s.drop i).take len = s.take len)

/-- `expected_matches = (len(sequence) - length) // length`. -/
def expectedMatches (s : List String) (len : ℕ) : ℕ :=
  (s.length - len) / len

/-- The acceptance test of one candidate length:
`matches >= 0.7 * expected_matches and matches > 1`.  The double
comparison of the source is exact at these magnitudes and is rendered
as the exact rational inequality `10 * matches >= 7 * expected`. -/
def lengthQualifies (s : List String) (len : ℕ) : Bool :=
  decide (7 * expectedMatches s len ≤ 10 * strideMatches s len) && decide (1 < strideMatches s len)

/-- Embeds `detect_pattern_length` (src/components/map_analysis.py):
first (smallest) qualifying candidate length in
`range(1, min(max_length, len(sequence) // 2) + 1)`, else 0; sequences
shorter than 4 give 0 outright. -/
def detect_pattern_length (s : List String) (maxLength : ℕ) : ℕ :=
  if s.length < 4 then 0
  else ((List.range' 1 (min maxLength (s.length / 2))).find? (lengthQualifies s)).getD 0

/-- Wall-clock value of a timestamp (what `.hour`, `.dayofweek`,
`.replace` operate on). -/
def wallOf (t : Tstamp) : ℚ := t.sec + t.off

/-- `Timestamp.dayofweek` (Monday = 0; day 0 of the epoch is a
Thursday). -/
def dayOfWeekTs (t : Tstamp) : ℤ :=
  ((wallOf t).floor / 86400 + 3).emod 7

/-- `timestamp.replace(hour=h, minute=0, second=0)`: the wall-clock hour
becomes `h` and minutes/seconds are zeroed; sub-second components are
preserved (`replace` does not touch microseconds). -/
def replaceHourZero (h : ℕ) (t : Tstamp) : Tstamp :=
  let wall := wallOf t
  let wf : ℤ := wall.floor
  let subsec : ℚ := wall - (wf : ℚ)
  let dayStart : ℤ := wf - wf.emod 86400
  { t with sec := ((dayStart : ℚ) + (h : ℚ) * 3600 + subsec) - t.off }

/-- Adding an absolute duration (`pd.Timedelta`) to a timestamp. -/
def addSeconds (t : Tstamp) (s : ℚ) : Tstamp :=
  { t with sec := t.sec + s }

/-- `"{days} hari {hours} jam lagi"` where `days = td.days` and
`hours = td.seconds // 3600` of the timedelta of `delta` seconds. -/
def leadTimeString (delta : ℚ) : String :=
  let fl : ℤ := delta.floor
  let days : ℤ := fl.ediv 86400
  let hoursUntil : ℤ := (fl - 86400 * days).ediv 3600
  s!"{days} hari {hoursUntil} jam lagi"

/-- The overdue sentinel emitted when the projected time is in the past. -/
def overdueSentinel : String := "Seharusnya sudah dibuka"

/-- One predicted record of `predict_next_servers`.  `nextOpen` carries
the projected opening instant from which the source formats the
`Tanggal` (date) and `Jam` (time) display strings. -/
structure PredRow where
  serverId : ℤ
  nextOpen : Tstamp
  districtId : ℤ
  mapType : String
  estimasi : String
deriving DecidableEq, Repr

/-- The column shape shared by the populated and the empty fallback
result frame. -/
def predColumns : List String :=
  ["ServerId", "Tanggal", "Jam", "DistrictId", "MapType", "Estimasi"]

structure PredResult where
  columns : List String
  records : List PredRow
deriving DecidableEq, Repr

/-- All-or-nothing effectful map: the body of the
`for i in range(1, num_servers + 1)` loop, where a raised exception in
any iteration aborts the whole `try:` block. -/
def optionMapM (f : α → Option β) : List α → Option (List β)
  | [] => some []
  | x :: xs =>
    match f x, optionMapM f xs with
    | some y, some ys => some (y :: ys)
    | _, _ => none

/-- `df.sort_values('OpenDateTime').tail(30)` — the recency window. -/
def recentOf (df : List Row) : List Row :=
  let s := sortRowsByTime df
  s.drop (s.length - 30)

/-- Median inter-event gap in hours over the recency window
(`NaN`, i.e. `none`, when fewer than two recent rows). -/
def avgHoursOf (df : List Row) : Option ℚ :=
  medianQ (timeDeltasHours (recentOf df))

/-- `_detect_map_pattern` applied to the map types of the last 20 rows
by opening time. -/
def mapTypesOf (df : List Row) : List String :=
  let s := sortRowsByTime df
  detect_map_pattern ((s.drop (s.length - 20)).map fun r => r.mapType)

/-- The projected opening time of the `i`-th predicted slot:
`last_open_date + pd.Timedelta(hours=avg_hours_between_servers * i)`,
then the modal-hour snap and modal-weekday advance when the respective
consistency exceeds 0.5.  `none` is `NaT` — the `NaN` median multiplied
into a `Timedelta` (a `NaT` survives `replace` and the weekday shift:
`NaT.dayofweek` is `nan` and `nan > 0` is false). -/
def projectedTime (lastOpen : Tstamp) (avgHours : Option ℚ) (hourCons dayCons : ℚ)
    (mch mcd : ℕ) (i : ℕ) : Option Tstamp :=
  let base : Option Tstamp := avgHours.map fun a => addSeconds lastOpen (a * i * 3600)
  if 1 / 2 < hourCons then
    base.map fun t0 =>
      let t1 := replaceHourZero mch t0
      if 1 / 2 < dayCons then
        let dta := ((mcd : ℤ) - dayOfWeekTs t1).emod 7
        if 0 < dta then addSeconds t1 ((86400 * dta : ℤ) : ℚ) else t1
      else t1
  else base

/-- The `Estimasi` string for a successfully projected aware-vs-aware
(or naive-vs-naive) comparison: the overdue sentinel for a negative
remaining time, else the `"D hari H jam lagi"` rendering. -/
def estimateOf (t now : Tstamp) : String :=
  if t.sec - now.sec < 0 then overdueSentinel else leadTimeString (t.sec - now.sec)

/-- Body of one iteration of the prediction loop of
`predict_next_servers` (src/utils/time_series.py lines 176-218).
`none` models a raised exception in the iteration:
  * a `NaT` projected time (median gap `NaN`) reaches
    `strftime`, which raises on `NaT`;
  * an out-of-range `map_types[map_index]` raises `IndexError`
    (shown impossible for claim C10);
  * `next_open_datetime - current_time_wib` raises `TypeError` when one
    operand is zone-naive and the other zone-aware. -/
def buildRec (lastOpen : Tstamp) (lastId lastDistrict : ℤ) (avgHours : Option ℚ)
    (hourCons : ℚ) (mch : ℕ) (dayCons : ℚ) (mcd : ℕ) (mapTypes : List String)
    (now : Tstamp) (i : ℕ) : Option PredRow :=
  (projectedTime lastOpen avgHours hourCons dayCons mch mcd i).bind fun t =>
  (mapTypes.get? (((lastId + i - 1).emod (mapTypes.length : ℤ)).toNat)).bind fun mt =>
  if t.aware = now.aware then
    some { serverId := lastId + i
           nextOpen := t
           districtId := lastDistrict + (((i - 1) / 4 : ℕ) : ℤ)
           mapType := mt
           estimasi := estimateOf t now }
  else none

/-- The `try:` body of `predict_next_servers`: `none` when any step
raises (empty table at `idxmax`, no row matching the maximal id at
`.iloc[0]`, or any loop iteration failing as in `buildRec`). -/
def predictCore (df : List Row) (numServers : ℕ) (now : Tstamp) : Option (List PredRow) :=
  (mostCommon ((recentOf df).map fun r => r.hour)).bind fun mch =>
  (mostCommon ((recentOf df).map fun r => r.dayOfWeek)).bind fun mcd =>
  (df.find? fun r => r.serverId = maxServerId df).bind fun lastServer =>
  optionMapM
    (buildRec lastServer.openDT (maxServerId df) lastServer.districtId
      (avgHoursOf df) (consistency ((recentOf df).map fun r => r.hour)) mch
      (consistency ((recentOf df).map fun r => r.dayOfWeek)) mcd (mapTypesOf df) now)
    (List.range' 1 numServers)

/-- Embeds `predict_next_servers` (src/utils/time_series.py).
`now` is `pd.Timestamp.now(tz=pytz.timezone(TIME_CONFIG["timezone"]))`,
always zone-aware.  The except-branch returns the empty frame with the
fixed column shape; the `num_servers = 0` run reaches the same empty
frame through the `astype` `KeyError` on the column-less empty frame. -/
def predict_next_servers (df : List Row) (numServers : ℕ) (now : Tstamp) : PredResult :=
  match predictCore df numServers now with
  | some recs => { columns := predColumns, records := recs }
  | none => { columns := predColumns, records := [] }

/-- An opaque fitted statistical model (`ARIMA(...).fit()` /
`SARIMAX(...).fit()`): `raw` is `model_fit.forecast(steps=n)`, which by
the statsmodels contract returns exactly `n` values. -/
structure FittedModel where
  raw : ℕ → List ℚ
  raw_len : ∀ n, (raw n).length = n

structure ForecastRes where
  values : List ℚ
  dates : List ℕ
deriving DecidableEq, Repr

/-- Embeds `forecast_with_arima` (src/utils/time_series.py).  Dates are
day numbers; `pd.date_range(start=last_date + pd.Timedelta(days=1),
periods=periods)` uses the default daily frequency, i.e. consecutive
days after the last observed date, whatever the cadence of `ts`.
`fitted = none` models a fitting exception (the source then returns
`(None, None, None)`); values are clamped by `np.maximum(·, 0)`. -/
def forecast_with_arima (fitted : Option FittedModel) (ts : List (ℕ × ℚ))
    (periods : ℕ) : Option ForecastRes :=
  match fitted, ts.getLast? with
  | some m, some last =>
    some { values := (m.raw periods).map fun v => max v 0
           dates := (List.range periods).map fun k => last.1 + 1 + k }
  | _, _ => none

/-- Embeds `forecast_with_sarima` (src/utils/time_series.py): identical
post-processing, the fixed-order seasonal model being abstracted into
`fitted` exactly as for the ARIMA variant. -/
def forecast_with_sarima (fitted : Option FittedModel) (ts : List (ℕ × ℚ))
    (periods : ℕ) : Option ForecastRes :=
  match fitted, ts.getLast? with
  | some m, some last =>
    some { values := (m.raw periods).map fun v => max v 0
           dates := (List.range periods).map fun k => last.1 + 1 + k }
  | _, _ => none

/-- Modelled from the spec: the claimed cadence-preserving first
forecast date for a month-start series — one month (the length in days
of the month following the last observed month start) after the last
observed date. -/
def specFirstForecastDateMonthly (lastMonthStart daysInNextMonth : ℕ) : ℕ :=
  lastMonthStart + daysInNextMonth

/-- The grid `p in range(0, 3), d in range(0, 2), q in range(0, 3)` of
`find_optimal_arima_params`, in loop order. -/
def arimaCombos : List (ℕ × ℕ × ℕ) :=
  (List.range 3).flatMap fun p =>
    (List.range 2).flatMap fun d =>
      (List.range 3).map fun q => (p, d, q)

/-- One iteration of the grid search: skip over-complex combinations
(`p + d + q > 4`), skip failing fits, keep the strictly lower AIC. -/
def arimaStep (fit : ℕ × ℕ × ℕ → Option ℚ) (acc : Option ((ℕ × ℕ × ℕ) × ℚ))
    (c : ℕ × ℕ × ℕ) : Option ((ℕ × ℕ × ℕ) × ℚ) :=
  if 4 < c.1 + c.2.1 + c.2.2 then acc
  else
    match fit c with
    | none => acc
    | some aic =>
      match acc with
      | none => some (c, aic)
      | some (b, baic) => if aic < baic then some (c, aic) else some (b, baic)

/-- Embeds `find_optimal_arima_params` (src/utils/time_series.py).
`fit c = some aic` models a successful `ARIMA(ts, order=c).fit()` with
that AIC; `none` a fit that raises (silently skipped).  When nothing
fits the fixed fallback `(1, 1, 0)` is returned. -/
def find_optimal_arima_params (fit : ℕ × ℕ × ℕ → Option ℚ) : ℕ × ℕ × ℕ :=
  match arimaCombos.foldl (arimaStep fit) none with
  | some (b, _) => b
  | none => (1, 1, 0)

/-- The weekday-analysis slice of the result of `analyze_time_patterns`
(src/utils/time_series.py lines 336-340); the hour / interval / month
fields of the source are not referenced by the claims and are omitted. -/
structure TimePatterns where
  weekdayCounts : List (String × ℕ)
  mostCommonDay : String
  weekdayConsistency : ℚ
deriving DecidableEq, Repr

def weekdayNames : List String :=
  ["Senin", "Selasa", "Rabu", "Kamis", "Jumat", "Sabtu", "Minggu"]

/-- The weekday slice of the except-branch fallback of
`analyze_time_patterns`. -/
def defaultTimePatterns : TimePatterns :=
  { weekdayCounts := weekdayNames.map fun nm => (nm, 0)
    mostCommonDay := "Senin"
    weekdayConsistency := 0 }

/-- Embeds the weekday analysis of `analyze_time_patterns`:
`value_counts().sort_index()` is the list of (weekday, multiplicity)
pairs for the weekdays present, in ascending weekday order; the
`weekday_counts` dict zips those counts POSITIONALLY with
`weekday_names` via `enumerate`; `most_common_day` uses
`weekday_names[weekday_counts.idxmax()]`, indexing by the weekday
itself.  An empty table raises at `idxmax` and lands in the
except-branch fallback. -/
def analyze_time_patterns (df : List Row) : TimePatterns :=
  let dows := df.map fun r => r.dayOfWeek
  let present := (List.range 7).filter fun w => 0 < dows.count w
  match present with
  | [] => defaultTimePatterns
  | _ =>
    let counts := present.map fun w => dows.count w
    let maxCount := counts.foldl max 0
    let total := counts.foldl (fun a b => a + b) (0 : ℕ)
    { weekdayCounts := present.enum.map fun iw => (weekdayNames.getD iw.1 "", dows.count iw.2)
      mostCommonDay :=
        weekdayNames.getD ((present.find? fun w => dows.count w = maxCount).getD 0) ""
      weekdayConsistency := (maxCount : ℚ) / (total : ℚ) }

/-- Smallest date of a non-empty count series (`daily['Date'].min()`). -/
def minDate (l : List (ℕ × ℚ)) : ℕ :=
  ((l.map Prod.fst).headD 0) |> (l.map Prod.fst).foldl min

/-- Largest date of a non-empty count series (`daily['Date'].max()`). -/
def maxDate (l : List (ℕ × ℚ)) : ℕ :=
  ((l.map Prod.fst).headD 0) |> (l.map Prod.fst).foldl max

/-- Embeds the calendar-completion step of `prepare_time_series_data`
(src/utils/data_processor.py lines 167-179): a full
`pd.date_range(min, max)` (dates are consecutive cadence indices — day
numbers for the daily run, month numbers for the `freq='MS'` run),
left-merged with the observed counts, missing entries filled with 0. -/
def completeCalendar (l : List (ℕ × ℚ)) : List (ℕ × ℚ) :=
  match l with
  | [] => []
  | _ =>
    (List.range' (minDate l) (maxDate l + 1 - minDate l)).map fun d =>
      (d, (l.lookup d).getD 0)

/-- Concrete fixtures used by closed witnesses / counterexamples. -/
def nowJakarta : Tstamp := { aware := true, sec := 1000000, off := 25200 }

/-- A naive three-row table as produced by the repository's own
ingestion pipeline (`_process_time_data`): epoch opening times 0 s,
18000 s, 32400 s. -/
def naiveRaws : List RawServer :=
  [ { serverId := 1, districtId := 1, openTime := 0, mapType := "Sever_Map_G1_1_v2" },
    { serverId := 2, districtId := 1, openTime := 18000, mapType := "Sever_Map_G1_2_v2" },
    { serverId := 3, districtId := 2, openTime := 32400, mapType := "Sever_Map_G1_3_v2" } ]

/-- A two-row zone-aware table (offset +7:00) on which the prediction
loop succeeds. -/
def awareTable : List Row :=
  [ { serverId := 1, districtId := 3,
      openDT := { aware := true, sec := 0, off := 25200 },
      hour := 5, dayOfWeek := 1, mapType := "A" },
    { serverId := 2, districtId := 3,
      openDT := { aware := true, sec := 7200, off := 25200 },
      hour := 7, dayOfWeek := 1, mapType := "B" } ]

def nowZero : Tstamp := { aware := true, sec := 0, off := 25200 }

/-- A length-3 cycle repeated exactly 6 times. -/
def cycle3Seq : List String :=
  ["a", "b", "c", "a", "b", "c", "a", "b", "c", "a", "b", "c", "a", "b", "c", "a", "b", "c"]

/-- A concrete fit oracle for the grid-search witness: only order
(0, 1, 1) fits, with AIC 3. -/
def witnessFit : ℕ × ℕ × ℕ → Option ℚ :=
  fun c => if c = (0, 1, 1) then some 3 else none

/-- A concrete fitted model whose raw forecast output is negative at
every step. -/
def negativeModel : FittedModel :=
  { raw := fun n => List.replicate n (-5)
    raw_len := fun n => List.length_replicate n (-5) }

/-- A month-start count series: 2023-01-01 (day 0) and 2023-02-01
(day 31); the month after the last observed month start has 28 days. -/
def monthlySeries : List (ℕ × ℚ) := [(0, 5), (31, 3)]

/-- Three openings: two on Wednesday (`DayOfWeek = 2`), one on Friday
(`DayOfWeek = 4`). -/
def wedFriTable : List Row :=
  [ { serverId := 1, districtId := 1,
      openDT := { aware := false, sec := 0, off := 0 },
      hour := 10, dayOfWeek := 2, mapType := "A" },
    { serverId := 2, districtId := 1,
      openDT := { aware := false, sec := 86400, off := 0 },
      hour := 11, dayOfWeek := 2, mapType := "B" },
    { serverId := 3, districtId := 1,
      openDT := { aware := false, sec := 172800, off := 0 },
      hour := 12, dayOfWeek := 4, mapType := "C" } ]

/-- A gappy count series for the calendar-completion witness. -/
def gappySeries : List (ℕ × ℚ) := [(2, 5), (4, 7)]

lemma patternCandidate_some_length {l : List String} {n : ℕ} {p : List String}
    (hn : n ≤ l.length) (h : patternCandidate l n = some p) : p.length = n := by
  unfold patternCandidate at h
  split at h
  · cases h
    simp only [List.length_drop]
    omega
  · cases h

lemma detect_map_pattern_length (l : List String) :
    2 ≤ (detect_map_pattern l).length ∧ (detect_map_pattern l).length ≤ 4 := by
  unfold detect_map_pattern
  split
  · simp [defaultMapPattern]
  · rename_i h4
    have h4' : 4 ≤ l.length := by omega
    cases h2 : patternCandidate l 2 with
    | some p =>
      have := patternCandidate_some_length (by omega) h2
      simp [h2, this]
    | none =>
      cases h3 : patternCandidate l 3 with
      | some p =>
        have := patternCandidate_some_length (by omega) h3
        simp [h2, h3, this]
      | none =>
        cases hc4 : patternCandidate l 4 with
        | some p =>
          have := patternCandidate_some_length (by omega) hc4
          simp [h2, h3, hc4, this]
        | none =>
          simp [h2, h3, hc4, List.length_drop]
          omega

/-- C10: `_detect_map_pattern` always returns a pattern of length
between 2 and 4 (a detected recent pattern, the last 4 tokens, or the
4-element default alphabet), so the cyclic lookup
`map_types[(next_server_id - 1) % len(map_types)]` in
`predict_next_servers` never divides by zero and never indexes out of
range. -/
theorem detect_map_pattern_safe (l : List String) (id : ℤ) :
    2 ≤ (detect_map_pattern l).length ∧ (detect_map_pattern l).length ≤ 4 ∧
    ((id - 1).emod ((detect_map_pattern l).length : ℤ)).toNat < (detect_map_pattern l).length ∧
    (detect_map_pattern l).get?
      (((id - 1).emod ((detect_map_pattern l).length : ℤ)).toNat) ≠ none := by
  obtain ⟨h2, h4⟩ := detect_map_pattern_length l
  have hpos : (0 : ℤ) < ((detect_map_pattern l).length : ℤ) := by exact_mod_cast by omega
  have hnn : (0 : ℤ) ≤ (id - 1).emod ((detect_map_pattern l).length : ℤ) :=
    Int.emod_nonneg _ (by omega)
  have hlt : (id - 1).emod ((detect_map_pattern l).length : ℤ) <
      ((detect_map_pattern l).length : ℤ) := Int.emod_lt_of_pos _ hpos
  have hidx : ((id - 1).emod ((detect_map_pattern l).length : ℤ)).toNat <
      (detect_map_pattern l).length := by omega
  refine ⟨h2, h4, hidx, ?_⟩
  rw [Ne, List.get?_eq_none]
  omega

/-- C3: `predict_next_servers` on the empty table returns the empty
result with the fixed six-column shape (the internal `idxmax`
`ValueError` is absorbed by the except-branch), and every result —
populated or fallback — carries exactly the columns `ServerId`,
`Tanggal`, `Jam`, `DistrictId`, `MapType`, `Estimasi`; the function is
total, never propagating an exception past this boundary. -/
theorem predict_next_servers_empty_safe :
    (∀ (n : ℕ) (now : Tstamp),
        predict_next_servers ([] : List Row) n now = { columns := predColumns, records := [] }) ∧
    (∀ (df : List Row) (n : ℕ) (now : Tstamp),
        (predict_next_servers df n now).columns = predColumns) := by
  constructor
  · intro n now
    rfl
  · intro df n now
    unfold predict_next_servers
    cases predictCore df n now
    · rfl
    · rfl

/-- C1 (failing input): on a non-empty well-formed table with
zone-naive timestamps — exactly what the repository's own
`_process_time_data` produces — `predict_next_servers` does NOT
normalize the operands before `next_open_datetime - current_time_wib`:
the naive projected time is subtracted from the zone-aware
`pd.Timestamp.now(tz)`, which raises `TypeError`, is swallowed by the
except-branch, and the function returns the empty frame with no
predicted records and no `Estimasi` at all. -/
theorem predict_naive_table_returns_empty :
    predict_next_servers (process_time_data naiveRaws) 5 nowJakarta
      = { columns := predColumns, records := [] } ∧
    process_time_data naiveRaws ≠ [] ∧
    nowJakarta.aware = true ∧
    (∀ r ∈ process_time_data naiveRaws, r.openDT.aware = false) := by
  refine ⟨of_decide_eq_true (by with_unfolding_all rfl), by decide, rfl, by decide⟩

/-- C8 (failing input): three openings, two on Wednesday
(`DayOfWeek = 2`) and one on Friday (`DayOfWeek = 4`).  The
`weekday_counts` dict of `analyze_time_patterns` zips the
index-sorted counts positionally with the weekday names, so the
Wednesday/Friday counts are attributed to Monday ("Senin") and Tuesday
("Selasa"), although zero openings occurred on those weekdays; the
modal weekday ("Rabu") and the consistency ratio (2/3) are computed
correctly. -/
theorem analyze_time_patterns_misattributes_weekdays :
    analyze_time_patterns wedFriTable
      = { weekdayCounts := [("Senin", 2), ("Selasa", 1)]
          mostCommonDay := "Rabu"
          weekdayConsistency := 2 / 3 } ∧
    wedFriTable.countP (fun r => decide (r.dayOfWeek = 0)) = 0 ∧
    wedFriTable.countP (fun r => decide (r.dayOfWeek = 1)) = 0 ∧
    wedFriTable.countP (fun r => decide (r.dayOfWeek = 2)) = 2 ∧
    wedFriTable.countP (fun r => decide (r.dayOfWeek = 4)) = 1 := by
  refine ⟨of_decide_eq_true (by with_unfolding_all rfl), by decide, by decide, by decide,
    by decide⟩

/-- C4 (counterexample): `forecast_with_arima` on a month-start series
whose last observed date is 2023-02-01 (day 31) generates forecast
dates `[32, 33]` — consecutive DAYS after the last observed date — not
the next month starts; the claimed same-cadence first date (one month
after, i.e. 2023-03-01 = day 59) differs. -/
theorem forecast_dates_ignore_monthly_cadence :
    (forecast_with_arima (some negativeModel) monthlySeries 2).map (fun r => r.dates)
      = some [32, 33] ∧
    (forecast_with_sarima (some negativeModel) monthlySeries 2).map (fun r => r.dates)
      = some [32, 33] ∧
    specFirstForecastDateMonthly 31 28 = 59 ∧
    ¬ ((32 : ℕ) = 59) := by
  refine ⟨rfl, rfl, rfl, by decide⟩

lemma find?_range'_none {p : ℕ → Bool} :
    ∀ (n s : ℕ), (List.range' s n).find? p = none →
      ∀ b, s ≤ b → b < s + n → p b = false := by
  intro n
  induction n with
  | zero => intro s _ b hb1 hb2; omega
  | succ m ih =>
    intro s h b hb1 hb2
    rw [List.range'_succ] at h
    rw [List.find?_cons] at h
    split at h
    · cases h
    · rename_i hps
      rcases Nat.eq_or_lt_of_le hb1 with he | hlt
      · subst he
        exact hps
      · exact ih (s + 1) h b hlt (by omega)

lemma find?_range'_some {p : ℕ → Bool} :
    ∀ (n s a : ℕ), (List.range' s n).find? p = some a →
      p a = true ∧ s ≤ a ∧ a < s + n ∧
        ∀ b, s ≤ b → b < s + n → p b = true → a ≤ b := by
  intro n
  induction n with
  | zero => intro s a h; cases h
  | succ m ih =>
    intro s a h
    rw [List.range'_succ] at h
    rw [List.find?_cons] at h
    split at h
    · cases h
      rename_i hps
      exact ⟨hps, le_refl _, by omega, fun b hb _ _ => hb⟩
    · rename_i hps
      obtain ⟨hpa, ha1, ha2, hmin⟩ := ih (s + 1) a h
      refine ⟨hpa, by omega, by omega, ?_⟩
      intro b hb1 hb2 hpb
      rcases Nat.eq_or_lt_of_le hb1 with he | hlt
      · subst he
        rw [hps] at hpb
        cases hpb
      · exact hmin b hlt (by omega) hpb

/-- C5: `detect_pattern_length` returns 0 on sequences shorter than 4;
otherwise it returns the smallest candidate length in
`1..min(max_length, len // 2)` whose prefix, scanned in non-overlapping
stride windows, reaches the `matches >= 0.7 * expected` and
`matches > 1` thresholds — or 0 when no length qualifies.  On a
length-3 cycle repeated exactly 6 times it returns 3. -/
theorem detect_pattern_length_minimal (s : List String) :
    (s.length < 4 → detect_pattern_length s 8 = 0) ∧
    (4 ≤ s.length →
      ((∀ len, 1 ≤ len → len ≤ min 8 (s.length / 2) → lengthQualifies s len = false) →
        detect_pattern_length s 8 = 0) ∧
      (∀ len, 1 ≤ len → len ≤ min 8 (s.length / 2) → lengthQualifies s len = true →
        lengthQualifies s (detect_pattern_length s 8) = true ∧
        1 ≤ detect_pattern_length s 8 ∧ detect_pattern_length s 8 ≤ len)) ∧
    detect_pattern_length cycle3Seq 8 = 3 := by
  refine ⟨?_, ?_, by decide⟩
  · intro h
    unfold detect_pattern_length
    rw [if_pos h]
  · intro h4
    have hnot : ¬ s.length < 4 := by omega
    constructor
    · intro hall
      unfold detect_pattern_length
      rw [if_neg hnot]
      cases hf : (List.range' 1 (min 8 (s.length / 2))).find? (lengthQualifies s) with
      | none => rfl
      | some a =>
        obtain ⟨hpa, ha1, ha2, _⟩ := find?_range'_some _ _ _ hf
        have := hall a ha1 (by omega)
        rw [this] at hpa
        cases hpa
    · intro len hl1 hl2 hq
      unfold detect_pattern_length
      rw [if_neg hnot]
      cases hf : (List.range' 1 (min 8 (s.length / 2))).find? (lengthQualifies s) with
      | none =>
        have := find?_range'_none _ _ hf len hl1 (by omega)
        rw [this] at hq
        cases hq
      | some a =>
        obtain ⟨hpa, ha1, ha2, hmin⟩ := find?_range'_some _ _ _ hf
        exact ⟨hpa, ha1, hmin len hl1 (by omega) hq⟩

/-- Witness for C5 at the concrete repeated length-3 cycle. -/
theorem detect_pattern_length_minimal_witness :
    lengthQualifies cycle3Seq (detect_pattern_length cycle3Seq 8) = true ∧
    1 ≤ detect_pattern_length cycle3Seq 8 ∧ detect_pattern_length cycle3Seq 8 ≤ 3 :=
  ((detect_pattern_length_minimal cycle3Seq).2.1 (by decide)).2 3 (by decide) (by decide)
    (by decide)

/-- C7: whenever fitting succeeds, every forecast value returned by
`forecast_with_arima` and by `forecast_with_sarima` is non-negative —
the `np.maximum(forecast_values, 0)` clamp applies whatever the raw
model output is. -/
theorem forecast_values_nonneg (fm : FittedModel) (ts : List (ℕ × ℚ)) (periods : ℕ)
    (resA resS : ForecastRes)
    (ha : forecast_with_arima (some fm) ts periods = some resA)
    (hs : forecast_with_sarima (some fm) ts periods = some resS) :
    (∀ v ∈ resA.values, 0 ≤ v) ∧ (∀ v ∈ resS.values, 0 ≤ v) := by
  unfold forecast_with_arima at ha
  unfold forecast_with_sarima at hs
  cases hl : ts.getLast? with
  | none => rw [hl] at ha; cases ha
  | some last =>
    rw [hl] at ha
    rw [hl] at hs
    cases ha
    cases hs
    constructor <;>
    · intro v hv
      obtain ⟨w, _, hw⟩ := List.mem_map.mp hv
      rw [← hw]
      exact le_max_right w 0

/-- Witness for C7: a model whose raw forecast is `-5` at every step
still yields only non-negative (here zero) clamped values. -/
theorem forecast_values_nonneg_witness :
    (∀ v ∈ (ForecastRes.mk [0, 0] [32, 33]).values, (0 : ℚ) ≤ v) ∧
    (∀ v ∈ (ForecastRes.mk [0, 0] [32, 33]).values, (0 : ℚ) ≤ v) :=
  forecast_values_nonneg negativeModel monthlySeries 2 ⟨[0, 0], [32, 33]⟩ ⟨[0, 0], [32, 33]⟩
    (of_decide_eq_true (by with_unfolding_all rfl))
    (of_decide_eq_true (by with_unfolding_all rfl))

/-- C4 (amended): for every series on which fitting succeeds and every
horizon, both forecasters return exactly `periods` values and
`periods` dates, and the dates are the contiguous strictly-increasing
DAILY run starting one day after the last observed date — regardless of
the cadence of the input series (for a daily series this coincides with
the claimed same-cadence run). -/
theorem forecast_horizon_daily_run (fm : FittedModel) (ts : List (ℕ × ℚ)) (periods : ℕ)
    (resA resS : ForecastRes) (last : ℕ × ℚ)
    (hl : ts.getLast? = some last)
    (ha : forecast_with_arima (some fm) ts periods = some resA)
    (hs : forecast_with_sarima (some fm) ts periods = some resS) :
    resA.values.length = periods ∧ resS.values.length = periods ∧
    resA.dates = (List.range periods).map (fun k => last.1 + 1 + k) ∧
    resS.dates = (List.range periods).map (fun k => last.1 + 1 + k) ∧
    resA.dates.length = periods ∧ resS.dates.length = periods := by
  unfold forecast_with_arima at ha
  unfold forecast_with_sarima at hs
  rw [hl] at ha
  rw [hl] at hs
  cases ha
  cases hs
  refine ⟨?_, ?_, rfl, rfl, ?_, ?_⟩ <;>
    simp [List.length_map, fm.raw_len]

/-- Witness for C4's amended statement at a concrete model and series. -/
theorem forecast_horizon_daily_run_witness :
    (ForecastRes.mk [0, 0] [32, 33]).values.length = 2 ∧
    (ForecastRes.mk [0, 0] [32, 33]).values.length = 2 ∧
    (ForecastRes.mk [0, 0] [32, 33]).dates = (List.range 2).map (fun k => 31 + 1 + k) ∧
    (ForecastRes.mk [0, 0] [32, 33]).dates = (List.range 2).map (fun k => 31 + 1 + k) ∧
    (ForecastRes.mk [0, 0] [32, 33]).dates.length = 2 ∧
    (ForecastRes.mk [0, 0] [32, 33]).dates.length = 2 :=
  forecast_horizon_daily_run negativeModel monthlySeries 2 ⟨[0, 0], [32, 33]⟩
    ⟨[0, 0], [32, 33]⟩ (31, 3) rfl
    (of_decide_eq_true (by with_unfolding_all rfl))
    (of_decide_eq_true (by with_unfolding_all rfl))

lemma arima_fold_none_then (fit : ℕ × ℕ × ℕ → Option ℚ) :
    ∀ (cs : List (ℕ × ℕ × ℕ)) (acc : Option ((ℕ × ℕ × ℕ) × ℚ)),
      cs.foldl (arimaStep fit) acc = none →
      acc = none ∧ ∀ c ∈ cs, c.1 + c.2.1 + c.2.2 ≤ 4 → fit c = none := by
  intro cs
  induction cs with
  | nil =>
    intro acc h
    simp only [List.foldl_nil] at h
    exact ⟨h, by simp⟩
  | cons c cs ih =>
    intro acc h
    simp only [List.foldl_cons] at h
    obtain ⟨hstep, hrest⟩ := ih _ h
    by_cases hval : 4 < c.1 + c.2.1 + c.2.2
    · unfold arimaStep at hstep
      rw [if_pos hval] at hstep
      refine ⟨hstep, ?_⟩
      intro c' hc' hv'
      rcases List.mem_cons.mp hc' with he | hm
      · subst he; omega
      · exact hrest c' hm hv'
    · unfold arimaStep at hstep
      rw [if_neg hval] at hstep
      cases hfc : fit c with
      | none =>
        rw [hfc] at hstep
        refine ⟨hstep, ?_⟩
        intro c' hc' hv'
        rcases List.mem_cons.mp hc' with he | hm
        · subst he; exact hfc
        · exact hrest c' hm hv'
      | some aic =>
        rw [hfc] at hstep
        cases hacc : acc with
        | none => rw [hacc] at hstep; cases hstep
        | some p => rw [hacc] at hstep; cases p; dsimp at hstep; split at hstep <;> cases hstep

lemma arima_fold_none_of (fit : ℕ × ℕ × ℕ → Option ℚ) :
    ∀ (cs : List (ℕ × ℕ × ℕ)),
      (∀ c ∈ cs, c.1 + c.2.1 + c.2.2 ≤ 4 → fit c = none) →
      cs.foldl (arimaStep fit) none = none := by
  intro cs
  induction cs with
  | nil => intro _; rfl
  | cons c cs ih =>
    intro hall
    simp only [List.foldl_cons]
    have hstep : arimaStep fit none c = none := by
      unfold arimaStep
      by_cases hval : 4 < c.1 + c.2.1 + c.2.2
      · rw [if_pos hval]
      · rw [if_neg hval, hall c (List.mem_cons_self c cs) (by omega)]
    rw [hstep]
    exact ih fun c' hc' hv' => hall c' (List.mem_cons_of_mem c hc') hv'

lemma arima_fold_spec (fit : ℕ × ℕ × ℕ → Option ℚ) :
    ∀ (cs : List (ℕ × ℕ × ℕ)) (acc : Option ((ℕ × ℕ × ℕ) × ℚ)) (b : ℕ × ℕ × ℕ) (v : ℚ),
      (∀ b0 v0, acc = some (b0, v0) → fit b0 = some v0) →
      cs.foldl (arimaStep fit) acc = some (b, v) →
      fit b = some v ∧
      (acc = some (b, v) ∨ (b ∈ cs ∧ b.1 + b.2.1 + b.2.2 ≤ 4)) ∧
      (∀ c ∈ cs, c.1 + c.2.1 + c.2.2 ≤ 4 → ∀ a, fit c = some a → v ≤ a) ∧
      (∀ b0 v0, acc = some (b0, v0) → v ≤ v0) := by
  intro cs
  induction cs with
  | nil =>
    intro acc b v hP h
    simp only [List.foldl_nil] at h
    refine ⟨hP b v h, Or.inl h, by simp, ?_⟩
    intro b0 v0 h0
    rw [h] at h0
    cases h0
    exact le_refl v
  | cons c cs ih =>
    intro acc b v hP h
    simp only [List.foldl_cons] at h
    by_cases hval : 4 < c.1 + c.2.1 + c.2.2
    · unfold arimaStep at h
      rw [if_pos hval] at h
      obtain ⟨h1, h2, h3, h4⟩ := ih acc b v hP h
      refine ⟨h1, ?_, ?_, h4⟩
      · rcases h2 with hl | ⟨hm, hv⟩
        · exact Or.inl hl
        · exact Or.inr ⟨List.mem_cons_of_mem c hm, hv⟩
      · intro c' hc' hv' a hfa
        rcases List.mem_cons.mp hc' with he | hm
        · subst he; omega
        · exact h3 c' hm hv' a hfa
    · unfold arimaStep at h
      rw [if_neg hval] at h
      cases hfc : fit c with
      | none =>
        rw [hfc] at h
        obtain ⟨h1, h2, h3, h4⟩ := ih acc b v hP h
        refine ⟨h1, ?_, ?_, h4⟩
        · rcases h2 with hl | ⟨hm, hv⟩
          · exact Or.inl hl
          · exact Or.inr ⟨List.mem_cons_of_mem c hm, hv⟩
        · intro c' hc' hv' a hfa
          rcases List.mem_cons.mp hc' with he | hm
          · subst he; rw [hfc] at hfa; cases hfa
          · exact h3 c' hm hv' a hfa
      | some aic =>
        rw [hfc] at h
        cases hacc : acc with
        | none =>
          rw [hacc] at h
          dsimp at h
          have hP' : ∀ b0 v0, (some (c, aic) : Option ((ℕ × ℕ × ℕ) × ℚ)) = some (b0, v0) →
              fit b0 = some v0 := by
            intro b0 v0 h0
            cases h0
            exact hfc
          obtain ⟨h1, h2, h3, h4⟩ := ih (some (c, aic)) b v hP' h
          refine ⟨h1, ?_, ?_, ?_⟩
          · rcases h2 with hl | ⟨hm, hv⟩
            · cases hl
              exact Or.inr ⟨List.mem_cons_self c cs, by omega⟩
            · exact Or.inr ⟨List.mem_cons_of_mem c hm, hv⟩
          · intro c' hc' hv' a hfa
            rcases List.mem_cons.mp hc' with he | hm
            · subst he
              rw [hfc] at hfa
              cases hfa
              exact h4 _ aic rfl
            · exact h3 c' hm hv' a hfa
          · intro b0 v0 h0
            cases h0
        | some p =>
          cases p with
          | mk b0 v0 =>
            rw [hacc] at h
            dsimp at h
            by_cases hlt : aic < v0
            · rw [if_pos hlt] at h
              have hP' : ∀ b1 v1, (some (c, aic) : Option ((ℕ × ℕ × ℕ) × ℚ)) = some (b1, v1) →
                  fit b1 = some v1 := by
                intro b1 v1 h0
                cases h0
                exact hfc
              obtain ⟨h1, h2, h3, h4⟩ := ih (some (c, aic)) b v hP' h
              refine ⟨h1, ?_, ?_, ?_⟩
              · rcases h2 with hl | ⟨hm, hv⟩
                · cases hl
                  exact Or.inr ⟨List.mem_cons_self c cs, by omega⟩
                · exact Or.inr ⟨List.mem_cons_of_mem c hm, hv⟩
              · intro c' hc' hv' a hfa
                rcases List.mem_cons.mp hc' with he | hm
                · subst he
                  rw [hfc] at hfa
                  cases hfa
                  exact h4 _ aic rfl
                · exact h3 c' hm hv' a hfa
              · intro b1 v1 h0
                cases h0
                exact le_of_lt (lt_of_le_of_lt (h4 c aic rfl) hlt)
            · rw [if_neg hlt] at h
              obtain ⟨h1, h2, h3, h4⟩ := ih (some (b0, v0)) b v
                (by intro b1 v1 h0; cases h0; exact hP b0 v0 hacc) h
              refine ⟨h1, ?_, ?_, ?_⟩
              · rcases h2 with hl | ⟨hm, hv⟩
                · exact Or.inl hl
                · exact Or.inr ⟨List.mem_cons_of_mem c hm, hv⟩
              · intro c' hc' hv' a hfa
                rcases List.mem_cons.mp hc' with he | hm
                · subst he
                  rw [hfc] at hfa
                  cases hfa
                  exact le_trans (h4 b0 v0 rfl) (le_of_not_lt hlt)
                · exact h3 c' hm hv' a hfa
              · intro b1 v1 h0
                cases h0
                exact h4 b0 v0 rfl

/-- C6: `find_optimal_arima_params` searches exactly the grid
`p ∈ [0,2] × d ∈ [0,1] × q ∈ [0,2]`, skips every combination with
`p + d + q > 4`, silently skips failing fits, returns an order whose
AIC is lowest among all fitting surviving combinations, and falls back
to the fixed `(1, 1, 0)` when nothing fits. -/
theorem find_optimal_arima_params_spec (fit : ℕ × ℕ × ℕ → Option ℚ) :
    arimaCombos = [(0, 0, 0), (0, 0, 1), (0, 0, 2), (0, 1, 0), (0, 1, 1), (0, 1, 2),
                   (1, 0, 0), (1, 0, 1), (1, 0, 2), (1, 1, 0), (1, 1, 1), (1, 1, 2),
                   (2, 0, 0), (2, 0, 1), (2, 0, 2), (2, 1, 0), (2, 1, 1), (2, 1, 2)] ∧
    ((∀ c ∈ arimaCombos, c.1 + c.2.1 + c.2.2 ≤ 4 → fit c = none) →
      find_optimal_arima_params fit = (1, 1, 0)) ∧
    (∀ c ∈ arimaCombos, c.1 + c.2.1 + c.2.2 ≤ 4 → ∀ a, fit c = some a →
      find_optimal_arima_params fit ∈ arimaCombos ∧
      (find_optimal_arima_params fit).1 + (find_optimal_arima_params fit).2.1 +
        (find_optimal_arima_params fit).2.2 ≤ 4 ∧
      ∃ bv, fit (find_optimal_arima_params fit) = some bv ∧ bv ≤ a) := by
  refine ⟨by decide, ?_, ?_⟩
  · intro hall
    unfold find_optimal_arima_params
    rw [arima_fold_none_of fit arimaCombos hall]
  · intro c hc hval a hfa
    unfold find_optimal_arima_params
    cases hf : arimaCombos.foldl (arimaStep fit) none with
    | none =>
      exfalso
      obtain ⟨_, hall⟩ := arima_fold_none_then fit arimaCombos none hf
      rw [hall c hc hval] at hfa
      cases hfa
    | some p =>
      cases p with
      | mk b v =>
        obtain ⟨hfb, hprov, hmin, _⟩ :=
          arima_fold_spec fit arimaCombos none b v (by intro b0 v0 h0; cases h0) hf
        rcases hprov with hl | ⟨hmem, hv⟩
        · cases hl
        · exact ⟨hmem, hv, v, hfb, hmin c hc hval a hfa⟩

/-- Witness for C6: with a fit oracle where only order (0, 1, 1) fits
(AIC 3), the search returns a valid fitting order of minimal AIC. -/
theorem find_optimal_arima_params_spec_witness :
    find_optimal_arima_params witnessFit ∈ arimaCombos ∧
    (find_optimal_arima_params witnessFit).1 + (find_optimal_arima_params witnessFit).2.1 +
      (find_optimal_arima_params witnessFit).2.2 ≤ 4 ∧
    ∃ bv, witnessFit (find_optimal_arima_params witnessFit) = some bv ∧ bv ≤ 3 :=
  (find_optimal_arima_params_spec witnessFit).2.2 (0, 1, 1) (by decide) (by decide) 3
    (by decide)

lemma optionMapM_map_eq {α β γ : Type} (f : α → Option β) (g : β → γ) (h : α → γ) :
    ∀ (xs : List α) (ys : List β), optionMapM f xs = some ys →
      (∀ x y, f x = some y → g y = h x) → ys.map g = xs.map h := by
  intro xs
  induction xs with
  | nil =>
    intro ys hm _
    cases hm
    rfl
  | cons x xs ih =>
    intro ys hm hpt
    unfold optionMapM at hm
    cases hfx : f x with
    | none => rw [hfx] at hm; cases hm
    | some y =>
      rw [hfx] at hm
      cases hrec : optionMapM f xs with
      | none => rw [hrec] at hm; cases hm
      | some ys0 =>
        rw [hrec] at hm
        cases hm
        simp only [List.map_cons]
        rw [hpt x y hfx, ih ys0 hrec hpt]

lemma buildRec_fields (lastOpen : Tstamp) (lastId lastDistrict : ℤ) (avgHours : Option ℚ)
    (hourCons : ℚ) (mch : ℕ) (dayCons : ℚ) (mcd : ℕ) (mapTypes : List String)
    (now : Tstamp) (i : ℕ) (r : PredRow)
    (h : buildRec lastOpen lastId lastDistrict avgHours hourCons mch dayCons mcd
          mapTypes now i = some r) :
    r.serverId = lastId + i ∧ r.districtId = lastDistrict + (((i - 1) / 4 : ℕ) : ℤ) := by
  unfold buildRec at h
  rcases Option.bind_eq_some.mp h with ⟨t, _, h2⟩
  rcases Option.bind_eq_some.mp h2 with ⟨mt, _, h3⟩
  split at h3
  · cases h3
    exact ⟨rfl, rfl⟩
  · cases h3

/-- C2: whenever `predict_next_servers(table, n)` returns a non-empty
result, the records carry in order exactly the server ids
`last_id + 1, ..., last_id + n` (no id reused or skipped) and district
ids `last_district + (i - 1) // 4` — the district increases by one
every 4 predictions. -/
theorem predict_ids_and_districts (df : List Row) (n : ℕ) (now : Tstamp) (lr : Row)
    (hfind : (df.find? fun r => r.serverId = maxServerId df) = some lr) :
    (predict_next_servers df n now).records = [] ∨
    ((predict_next_servers df n now).records.map (fun r => r.serverId)
        = (List.range' 1 n).map (fun i : ℕ => maxServerId df + (i : ℤ)) ∧
     (predict_next_servers df n now).records.map (fun r => r.districtId)
        = (List.range' 1 n).map (fun i : ℕ => lr.districtId + (((i - 1) / 4 : ℕ) : ℤ))) := by
  cases hc : predictCore df n now with
  | none =>
    left
    unfold predict_next_servers
    rw [hc]
  | some recs =>
    right
    unfold predict_next_servers
    rw [hc]
    dsimp only
    unfold predictCore at hc
    rcases Option.bind_eq_some.mp hc with ⟨mch, _, hc2⟩
    rcases Option.bind_eq_some.mp hc2 with ⟨mcd, _, hc3⟩
    rcases Option.bind_eq_some.mp hc3 with ⟨ls, hls, hmap⟩
    rw [hfind] at hls
    cases hls
    have hpt1 : ∀ (i : ℕ) (r : PredRow),
        buildRec lr.openDT (maxServerId df) lr.districtId (avgHoursOf df)
          (consistency ((recentOf df).map fun r => r.hour)) mch
          (consistency ((recentOf df).map fun r => r.dayOfWeek)) mcd (mapTypesOf df) now i
          = some r →
        r.serverId = maxServerId df + (i : ℤ) :=
      fun i r hr => (buildRec_fields _ _ _ _ _ _ _ _ _ _ _ _ hr).1
    have hpt2 : ∀ (i : ℕ) (r : PredRow),
        buildRec lr.openDT (maxServerId df) lr.districtId (avgHoursOf df)
          (consistency ((recentOf df).map fun r => r.hour)) mch
          (consistency ((recentOf df).map fun r => r.dayOfWeek)) mcd (mapTypesOf df) now i
          = some r →
        r.districtId = lr.districtId + (((i - 1) / 4 : ℕ) : ℤ) :=
      fun i r hr => (buildRec_fields _ _ _ _ _ _ _ _ _ _ _ _ hr).2
    exact ⟨optionMapM_map_eq _ _ _ (List.range' 1 n) recs hmap hpt1,
           optionMapM_map_eq _ _ _ (List.range' 1 n) recs hmap hpt2⟩

/-- Witness for C2 on a concrete zone-aware two-row table: the two
predicted records carry ids 3, 4 and districts 3, 3. -/
theorem predict_ids_and_districts_witness :
    (predict_next_servers awareTable 2 nowZero).records = [] ∨
    ((predict_next_servers awareTable 2 nowZero).records.map (fun r => r.serverId)
        = (List.range' 1 2).map (fun i : ℕ => maxServerId awareTable + (i : ℤ)) ∧
     (predict_next_servers awareTable 2 nowZero).records.map (fun r => r.districtId)
        = (List.range' 1 2).map (fun i : ℕ => (3 : ℤ) + (((i - 1) / 4 : ℕ) : ℤ))) :=
  predict_ids_and_districts awareTable 2 nowZero
    { serverId := 2, districtId := 3, openDT := { aware := true, sec := 7200, off := 25200 },
      hour := 7, dayOfWeek := 1, mapType := "B" }
    rfl

lemma foldl_min_le_init : ∀ (xs : List ℕ) (a : ℕ), xs.foldl min a ≤ a := by
  intro xs
  induction xs with
  | nil => intro a; exact le_refl a
  | cons x xs ih =>
    intro a
    exact le_trans (ih (min a x)) (min_le_left a x)

lemma foldl_min_le_mem : ∀ (xs : List ℕ) (a x : ℕ), x ∈ xs → xs.foldl min a ≤ x := by
  intro xs
  induction xs with
  | nil => intro a x hx; cases hx
  | cons y ys ih =>
    intro a x hx
    rcases List.mem_cons.mp hx with he | hm
    · subst he
      exact le_trans (foldl_min_le_init ys (min a x)) (min_le_right a x)
    · exact ih (min a y) x hm

lemma foldl_min_cases : ∀ (xs : List ℕ) (a : ℕ), xs.foldl min a = a ∨ xs.foldl min a ∈ xs := by
  intro xs
  induction xs with
  | nil => intro a; exact Or.inl rfl
  | cons x xs ih =>
    intro a
    rcases ih (min a x) with he | hm
    · rw [List.foldl_cons, he]
      rcases min_choice a x with h1 | h2
      · exact Or.inl h1
      · exact Or.inr (by rw [h2]; exact List.mem_cons_self x xs)
    · exact Or.inr (List.mem_cons_of_mem x hm)

lemma foldl_max_ge_init : ∀ (xs : List ℕ) (a : ℕ), a ≤ xs.foldl max a := by
  intro xs
  induction xs with
  | nil => intro a; exact le_refl a
  | cons x xs ih =>
    intro a
    exact le_trans (le_max_left a x) (ih (max a x))

lemma foldl_max_ge_mem : ∀ (xs : List ℕ) (a x : ℕ), x ∈ xs → x ≤ xs.foldl max a := by
  intro xs
  induction xs with
  | nil => intro a x hx; cases hx
  | cons y ys ih =>
    intro a x hx
    rcases List.mem_cons.mp hx with he | hm
    · subst he
      exact le_trans (le_max_right a x) (foldl_max_ge_init ys (max a x))
    · exact ih (max a y) x hm

lemma foldl_max_cases : ∀ (xs : List ℕ) (a : ℕ), xs.foldl max a = a ∨ xs.foldl max a ∈ xs := by
  intro xs
  induction xs with
  | nil => intro a; exact Or.inl rfl
  | cons x xs ih =>
    intro a
    rcases ih (max a x) with he | hm
    · rw [List.foldl_cons, he]
      rcases max_choice a x with h1 | h2
      · exact Or.inl h1
      · exact Or.inr (by rw [h2]; exact List.mem_cons_self x xs)
    · exact Or.inr (List.mem_cons_of_mem x hm)

lemma minDate_le_of_mem {l : List (ℕ × ℚ)} {d : ℕ} (hd : d ∈ l.map Prod.fst) :
    minDate l ≤ d :=
  foldl_min_le_mem _ _ _ hd

lemma le_maxDate_of_mem {l : List (ℕ × ℚ)} {d : ℕ} (hd : d ∈ l.map Prod.fst) :
    d ≤ maxDate l :=
  foldl_max_ge_mem _ _ _ hd

lemma minDate_le_maxDate {l : List (ℕ × ℚ)} (hne : l ≠ []) : minDate l ≤ maxDate l := by
  cases l with
  | nil => exact absurd rfl hne
  | cons p ps =>
    have hh : p.1 ∈ ((p :: ps).map Prod.fst) := by simp
    exact le_trans (minDate_le_of_mem hh) (le_maxDate_of_mem hh)

lemma lookup_range_map (g : ℕ → ℚ) :
    ∀ (n s d : ℕ), s ≤ d → d < s + n →
      (((List.range' s n).map fun x => (x, g x)).lookup d) = some (g d) := by
  intro n
  induction n with
  | zero => intro s d h1 h2; omega
  | succ m ih =>
    intro s d h1 h2
    rw [List.range'_succ, List.map_cons, List.lookup_cons]
    by_cases hd : d = s
    · subst hd
      simp
    · have hb : (d == s) = false := by simp [hd]
      rw [hb]
      exact ih (s + 1) d (by omega) (by omega)

lemma completeCalendar_repr {l : List (ℕ × ℚ)} (hne : l ≠ []) :
    completeCalendar l = (List.range' (minDate l) (maxDate l + 1 - minDate l)).map
      fun d => (d, (l.lookup d).getD 0) := by
  cases l with
  | nil => exact absurd rfl hne
  | cons p ps => rfl

lemma completeCalendar_keys {l : List (ℕ × ℚ)} (hne : l ≠ []) :
    (completeCalendar l).map Prod.fst
      = List.range' (minDate l) (maxDate l + 1 - minDate l) := by
  rw [completeCalendar_repr hne, List.map_map]
  exact List.map_id _

lemma lookup_of_mem_of_nodup :
    ∀ (l : List (ℕ × ℚ)), (l.map Prod.fst).Nodup →
      ∀ d c, (d, c) ∈ l → l.lookup d = some c := by
  intro l
  induction l with
  | nil => intro _ d c hm; cases hm
  | cons p ps ih =>
    intro hnd d c hm
    cases p with
    | mk d0 c0 =>
      rw [List.map_cons, List.nodup_cons] at hnd
      rcases List.mem_cons.mp hm with he | hmem
      · cases he
        rw [List.lookup_cons]
        simp
      · by_cases hd : d = d0
        · subst hd
          exfalso
          exact hnd.1 (List.mem_map.mpr ⟨(d, c), hmem, rfl⟩)
        · rw [List.lookup_cons]
          have hb : (d == d0) = false := by simp [hd]
          rw [hb]
          exact ih hnd.2 d c hmem

lemma lookup_eq_none_of_not_mem :
    ∀ (l : List (ℕ × ℚ)) (d : ℕ), d ∉ l.map Prod.fst → l.lookup d = none := by
  intro l
  induction l with
  | nil => intro d _; rfl
  | cons p ps ih =>
    intro d hd
    cases p with
    | mk d0 c0 =>
      rw [List.map_cons] at hd
      have hne : d ≠ d0 := fun he => hd (by rw [he]; exact List.mem_cons_self _ _)
      rw [List.lookup_cons]
      have hb : (d == d0) = false := by simp [hne]
      rw [hb]
      exact ih d fun hm => hd (List.mem_cons_of_mem _ hm)

lemma minDate_eq_foldl (m : List (ℕ × ℚ)) :
    minDate m = (m.map Prod.fst).foldl min ((m.map Prod.fst).headD 0) := rfl

lemma maxDate_eq_foldl (m : List (ℕ × ℚ)) :
    maxDate m = (m.map Prod.fst).foldl max ((m.map Prod.fst).headD 0) := rfl

lemma minDate_complete {l : List (ℕ × ℚ)} (hne : l ≠ []) :
    minDate (completeCalendar l) = minDate l := by
  have hab := minDate_le_maxDate hne
  have hkeys := completeCalendar_keys hne
  have hk : maxDate l + 1 - minDate l = (maxDate l - minDate l) + 1 := by omega
  rw [minDate_eq_foldl (completeCalendar l), hkeys, hk, List.range'_succ]
  simp only [List.headD_cons]
  have hmem : ∀ x ∈ minDate l :: List.range' (minDate l + 1) (maxDate l - minDate l),
      minDate l ≤ x := by
    intro x hx
    rcases List.mem_cons.mp hx with he | hm
    · omega
    · have := (List.mem_range'_1.mp hm).1
      omega
  refine le_antisymm (foldl_min_le_init _ _) ?_
  rcases foldl_min_cases (minDate l :: List.range' (minDate l + 1) (maxDate l - minDate l))
      (minDate l) with he | hm
  · rw [he]
  · exact hmem _ hm

lemma maxDate_complete {l : List (ℕ × ℚ)} (hne : l ≠ []) :
    maxDate (completeCalendar l) = maxDate l := by
  have hab := minDate_le_maxDate hne
  have hkeys := completeCalendar_keys hne
  have hk : maxDate l + 1 - minDate l = (maxDate l - minDate l) + 1 := by omega
  rw [maxDate_eq_foldl (completeCalendar l), hkeys, hk, List.range'_succ]
  simp only [List.headD_cons]
  have hmem : ∀ x ∈ minDate l :: List.range' (minDate l + 1) (maxDate l - minDate l),
      x ≤ maxDate l := by
    intro x hx
    rcases List.mem_cons.mp hx with he | hm
    · omega
    · have := (List.mem_range'_1.mp hm).2
      omega
  have hin : maxDate l ∈ minDate l :: List.range' (minDate l + 1) (maxDate l - minDate l) := by
    rcases Nat.eq_or_lt_of_le hab with he | hlt
    · rw [← he]; exact List.mem_cons_self _ _
    · exact List.mem_cons_of_mem _ (List.mem_range'_1.mpr ⟨by omega, by omega⟩)
  refine le_antisymm ?_ (foldl_max_ge_mem _ _ _ hin)
  rcases foldl_max_cases (minDate l :: List.range' (minDate l + 1) (maxDate l - minDate l))
      (minDate l) with he | hm
  · rw [he]; exact hab
  · exact hmem _ hm

/-- C9: calendar completion of `prepare_time_series_data` on a
non-empty count series with distinct dates yields every cadence index
between the minimum and maximum observed date exactly once, preserves
the observed counts, fills every missing date with count 0, and is
idempotent: completing an already-complete series changes nothing. -/
theorem completeCalendar_spec (l : List (ℕ × ℚ)) (hne : l ≠ [])
    (hnd : (l.map Prod.fst).Nodup) :
    ((completeCalendar l).map Prod.fst
        = List.range' (minDate l) (maxDate l + 1 - minDate l)) ∧
    ((completeCalendar l).map Prod.fst).Nodup ∧
    (∀ d : ℕ, d ∈ (completeCalendar l).map Prod.fst ↔ minDate l ≤ d ∧ d ≤ maxDate l) ∧
    (∀ p ∈ l, p ∈ completeCalendar l) ∧
    (∀ d : ℕ, minDate l ≤ d → d ≤ maxDate l → d ∉ l.map Prod.fst →
      (d, (0 : ℚ)) ∈ completeCalendar l) ∧
    completeCalendar (completeCalendar l) = completeCalendar l := by
  have hab := minDate_le_maxDate hne
  have hkeys := completeCalendar_keys hne
  refine ⟨hkeys, ?_, ?_, ?_, ?_, ?_⟩
  · rw [hkeys]
    exact List.nodup_range' _ _
  · intro d
    rw [hkeys, List.mem_range'_1]
    constructor
    · intro h; omega
    · intro h; omega
  · intro p hp
    cases p with
    | mk d c =>
      have hdm : d ∈ l.map Prod.fst := List.mem_map.mpr ⟨(d, c), hp, rfl⟩
      have h1 := minDate_le_of_mem hdm
      have h2 := le_maxDate_of_mem hdm
      rw [completeCalendar_repr hne]
      refine List.mem_map.mpr ⟨d, ?_, ?_⟩
      · rw [List.mem_range'_1]; omega
      · rw [lookup_of_mem_of_nodup l hnd d c hp]
        rfl
  · intro d h1 h2 hnm
    rw [completeCalendar_repr hne]
    refine List.mem_map.mpr ⟨d, ?_, ?_⟩
    · rw [List.mem_range'_1]; omega
    · rw [lookup_eq_none_of_not_mem l d hnm]
      rfl
  · have hne2 : completeCalendar l ≠ [] := by
      intro h0
      rw [h0] at hkeys
      have : maxDate l + 1 - minDate l = 0 := by
        by_contra hk0
        have hk : maxDate l + 1 - minDate l = (maxDate l - minDate l) + 1 := by omega
        rw [hk, List.range'_succ] at hkeys
        cases hkeys
      omega
    have hlook : ∀ d, minDate l ≤ d → d ≤ maxDate l →
        (completeCalendar l).lookup d = some ((l.lookup d).getD 0) := by
      intro d hd1 hd2
      rw [completeCalendar_repr hne]
      exact lookup_range_map _ _ _ d hd1 (by omega)
    calc completeCalendar (completeCalendar l)
        = (List.range' (minDate l) (maxDate l + 1 - minDate l)).map
            (fun d => (d, ((completeCalendar l).lookup d).getD 0)) := by
          rw [completeCalendar_repr hne2, minDate_complete hne, maxDate_complete hne]
      _ = (List.range' (minDate l) (maxDate l + 1 - minDate l)).map
            (fun d => (d, (l.lookup d).getD 0)) := by
          apply List.map_congr_left
          intro d hd
          rw [List.mem_range'_1] at hd
          rw [hlook d hd.1 (by omega)]
          rfl
      _ = completeCalendar l := (completeCalendar_repr hne).symm

/-- Witness for C9 at the concrete gappy series `[(2, 5), (4, 7)]`. -/
theorem completeCalendar_spec_witness :
    ((completeCalendar gappySeries).map Prod.fst
        = List.range' (minDate gappySeries) (maxDate gappySeries + 1 - minDate gappySeries)) ∧
    ((completeCalendar gappySeries).map Prod.fst).Nodup ∧
    (∀ d : ℕ, d ∈ (completeCalendar gappySeries).map Prod.fst ↔
      minDate gappySeries ≤ d ∧ d ≤ maxDate gappySeries) ∧
    (∀ p ∈ gappySeries, p ∈ completeCalendar gappySeries) ∧
    (∀ d : ℕ, minDate gappySeries ≤ d → d ≤ maxDate gappySeries →
      d ∉ gappySeries.map Prod.fst → (d, (0 : ℚ)) ∈ completeCalendar gappySeries) ∧
    completeCalendar (completeCalendar gappySeries) = completeCalendar gappySeries :=
  completeCalendar_spec gappySeries (by decide) (by decide)
